import Mathlib

/-!
# Verification of the p8fs content processing engine

Shallow embedding of the content-processing core of `p8fs-node`
(`src/p8fs-node/rust/p8fs-node/src/providers/*`, `src/models/mod.rs`) in
Lean 4, together with theorems settling the frozen specification claims.

External decoders (pdf-extract, pulldown-cmark, serde_json parsing, hound,
docx-rs) are collaborators excluded by the specification; the embedding
takes their decoded output (text, event streams, parsed JSON trees, sample
counts) as input, and translates the engine's own functions line by line
from the Rust source.
-/

namespace P8fs

/-! ## Data model (`src/models/mod.rs`) -/

/-- `ContentType` enumeration, `src/models/mod.rs` lines 9-26. -/
inductive ContentType where
  | Pdf | Audio | Video | Image | Text | Markdown | StructuredData
  | Document | Spreadsheet | Presentation | Archive | Code | Email | Web
  | Unknown
deriving DecidableEq, Repr

/-- `serde_json::Value`. Objects are association lists carrying the entries
in the order `serde_json::Map` (a `BTreeMap`, ascending key order) yields
them; numbers are modelled by integers (every number appearing in this
development is integral). -/
inductive Json where
  | null : Json
  | bool : Bool → Json
  | num : Int → Json
  | str : String → Json
  | arr : List Json → Json
  | obj : List (String × Json) → Json

/-- `ContentChunk`, `src/models/mod.rs` lines 28-33. The `HashMap` metadata
is an association list with unique keys; iteration order is irrelevant. -/
structure ContentChunk where
  id : String
  content : String
  metadata : List (String × Json)

/-- `ContentMetadata`, `src/models/mod.rs` lines 35-46. -/
structure ContentMetadata where
  content_type : ContentType
  file_name : Option String
  file_size : Option Nat
  created_at : Option String
  modified_at : Option String
  author : Option String
  title : Option String
  language : Option String
  additional : List (String × Json)

/-- `ContentProcessingResult`, `src/models/mod.rs` lines 48-53. -/
structure ContentProcessingResult where
  success : Bool
  chunks : List ContentChunk
  metadata : ContentMetadata
  error : Option String

/-- `HashMap::insert`: replace the value if the key is present, otherwise
append the pair. -/
def hashInsert : List (String × Json) → String → Json → List (String × Json)
  | [], k, v => [(k, v)]
  | (k', v') :: rest, k, v =>
      if k' = k then (k, v) :: rest else (k', v') :: hashInsert rest k v

/-! ## Decimal formatting

Rust's `format!` renders a `usize` as its decimal numeral. -/

/-- Fuelled digit-list construction: each fuel unit peels one decimal
digit. A fuel of `n + 1` always suffices (`n / 10 < n` for `10 ≤ n`), so
the `0` base case is never reached from `natChars`. -/
def natCharsAux : Nat → Nat → List Char
  | 0, _ => []
  | Nat.succ f, n =>
      if n < 10 then [Nat.digitChar n]
      else natCharsAux f (n / 10) ++ [Nat.digitChar (n % 10)]

/-- The decimal digit list of `n`, most significant first: the embedding of
Rust's `Display` for unsigned integers. -/
def natChars (n : Nat) : List Char :=
  natCharsAux (n + 1) n

/-- Decimal rendering of a natural number (Rust `format!` of a `usize`). -/
def decimal (n : Nat) : String :=
  String.mk (natChars n)

/-- Rust `str::trim`: drop whitespace from both ends. (Lean's
`Char.isWhitespace` covers the ASCII whitespace occurring in this
development.) -/
def strTrim (s : String) : String :=
  String.mk (((s.data.dropWhile Char.isWhitespace).reverse.dropWhile
    Char.isWhitespace).reverse)

/-- Rust `str::to_lowercase`, which coincides with per-character ASCII
lowercasing on every input considered here. -/
def strToLower (s : String) : String :=
  String.mk (s.data.map Char.toLower)

/-- Rust `str::replace` with a single-character pattern: substitute the
string `r` for every occurrence of the character `c`. -/
def replaceChar (c : Char) (r : String) (s : String) : String :=
  String.mk (s.data.flatMap (fun ch => if ch = c then r.data else [ch]))

/-- Decimal rendering of an integer (Rust `Display` for numbers; used by
`serde_json::Number::to_string` on integral numbers). -/
def intRepr (n : Int) : String :=
  if 0 ≤ n then decimal n.toNat else "-" ++ decimal n.natAbs

/-! ## Result assembly (`process_content`)

All five providers implement `process_content` with the identical body
(pdf.rs 39-49, markdown.rs 86-96, json.rs 105-115, audio.rs 40-50,
document.rs 70-80): chunk extraction, then metadata extraction, both behind
the `?` operator, then a result with `success: true` and `error: None`.
The `anyhow::Result` discipline is embedded by `Except String`. -/

/-- Shared body of every provider's `process_content`: `?` on the chunk
result, `?` on the metadata result, then assembly of a successful result. -/
def process_content (chunksR : Except String (List ContentChunk))
    (metadataR : Except String ContentMetadata) :
    Except String ContentProcessingResult := do
  let chunks ← chunksR
  let metadata ← metadataR
  pure ⟨true, chunks, metadata, none⟩

/-- `PdfProvider::to_metadata` (pdf.rs 87-101), with the filesystem stat
data (name, size) provided as inputs. -/
def pdf_to_metadata (fileName : Option String) (fileSize : Nat) :
    ContentMetadata :=
  ⟨ContentType.Pdf, fileName, some fileSize, none, none, none, none, none, []⟩

/-! ## Provider registry (`src/providers/registry.rs`) -/

/-- The five provider implementations; each exists as exactly one shared
instance in the lazily built registry, so instance identity is value
equality of this enumeration. -/
inductive Provider where
  | pdf | audio | document | json | markdown
deriving DecidableEq, Repr

/-- `get_provider` (registry.rs 25-27): lookup in the fixed registry map
built at registry.rs 13-23. -/
def get_provider : ContentType → Option Provider
  | .Pdf => some .pdf
  | .Audio => some .audio
  | .Document => some .document
  | .StructuredData => some .json
  | .Markdown => some .markdown
  | _ => none

/-- The `match extension.to_lowercase().as_str()` table of
`get_provider_by_extension` (registry.rs 30-37). -/
def content_type_for_extension (s : String) : Option ContentType :=
  if s = "pdf" then some .Pdf
  else if s = "wav" then some .Audio
  else if s = "docx" then some .Document
  else if s = "json" then some .StructuredData
  else if s = "md" ∨ s = "markdown" then some .Markdown
  else none

/-- `get_provider_by_extension` (registry.rs 29-40). -/
def get_provider_by_extension (ext : String) :
    Option (ContentType × Provider) :=
  match content_type_for_extension (strToLower ext) with
  | none => none
  | some ct => (get_provider ct).map (fun p => (ct, p))

/-! ## Sliding-window chunking (pdf.rs 16-34 and document.rs 47-65)

`PdfProvider::chunk_text` and `DocumentProvider::chunk_text` have
character-for-character identical bodies; the single embedding below stands
for both. The loop is rendered as recursion on the suffix of the character
vector that starts at `start`; it is fuelled because the Rust loop does not
terminate when `overlap ≥ chunk_size` (then `start = end - overlap` never
advances). A fuel of `length + 1` is exhausted only in that diverging case
(proved below for `overlap < chunk_size`). -/

/-- One iteration per fuel unit of the `while start < chars.len()` loop of
`chunk_text`: `rest` is `chars[start..]`, the pushed chunk is
`chars[start..min(start+chunk_size, len)] = rest.take C`, the `break` fires
exactly when `start + C ≥ len` i.e. `rest.length ≤ C`, and otherwise
`start` advances by `C - O`. -/
def chunkTextAux (C O : Nat) : Nat → List Char → List (List Char)
  | 0, _ => []
  | Nat.succ f, rest =>
      if rest.isEmpty then []
      else if rest.length ≤ C then [rest]
      else rest.take C :: chunkTextAux C O f (rest.drop (C - O))

/-- `chunk_text` (pdf.rs 16-34 = document.rs 47-65) on the decoded
character vector. -/
def chunk_text (text : List Char) (C O : Nat) : List (List Char) :=
  chunkTextAux C O (text.length + 1) text

/-- Concatenation of each chunk's non-overlapping prefix: all but the last
`O` characters of every chunk except the final one, then the final chunk
whole. -/
def prefixJoin (O : Nat) : List (List Char) → List Char
  | [] => []
  | [c] => c
  | c :: rest => c.take (c.length - O) ++ prefixJoin O rest

/-- Chunk assembly of `PdfProvider::to_markdown_chunks` (pdf.rs 60-84) for
ordinal `i`. -/
def pdf_chunk (i : Nat) (content : List Char) : ContentChunk :=
  { id := "pdf_chunk_" ++ decimal i
    content :=
      if i = 0 then "# PDF Document Content\n\n" ++ strTrim (String.mk content)
      else "## Section " ++ decimal (i + 1) ++ "\n\n" ++
        strTrim (String.mk content)
    metadata := [("chunk_index", Json.num i), ("source", Json.str "pdf"),
      ("page_reference", Json.str ("Page ~" ++ decimal (i + 1)))] }

/-- `PdfProvider::to_markdown_chunks` (pdf.rs 51-85) applied to the text
the external `pdf_extract::extract_text` decoder produced. -/
def pdf_to_markdown_chunks (text : String) : List ContentChunk :=
  ((chunk_text text.data 1000 200).enum).map (fun p => pdf_chunk p.1 p.2)

/-- Chunk assembly of `DocumentProvider::to_markdown_chunks`
(document.rs 94-116) for ordinal `i`. -/
def document_chunk (i : Nat) (content : List Char) : ContentChunk :=
  { id := "doc_chunk_" ++ decimal i
    content :=
      if i = 0 then "# Document Content\n\n" ++ strTrim (String.mk content)
      else "## Section " ++ decimal (i + 1) ++ "\n\n" ++
        strTrim (String.mk content)
    metadata := [("chunk_index", Json.num i), ("source", Json.str "docx"),
      ("section", Json.str ("Document Section " ++ decimal (i + 1)))] }

/-- `DocumentProvider::to_markdown_chunks` (document.rs 82-119) applied to
the text extracted from the decoded DOCX document. -/
def document_to_markdown_chunks (text : String) : List ContentChunk :=
  ((chunk_text text.data 1000 200).enum).map (fun p => document_chunk p.1 p.2)

/-! ## Heading-based section splitting (markdown.rs 16-81)

`MarkdownProvider::extract_sections` folds over the `pulldown_cmark` event
stream. The parser is an external decoder; `Event` below embeds exactly
the event shapes the fold distinguishes (its `_ => {}` arm is `other`),
and `startHeading` carries `level as usize` (`HeadingLevel::H1 = 1` …
`H6 = 6`). -/

/-- The `pulldown_cmark` events distinguished by `extract_sections`. -/
inductive Event where
  | startHeading : Nat → Event
  | endHeading : Event
  | text : String → Event
  | code : String → Event
  | startCodeBlock : Event
  | endCodeBlock : Event
  | softBreak : Event
  | hardBreak : Event
  | other : Event
deriving DecidableEq, Repr

/-- The mutable locals of `extract_sections`: the accumulated `sections`,
`current_section` (`cs`), `current_content` (`cc`), `current_level`
(`lvl`) and `in_code_block` (`icb`). -/
structure MdState where
  sections : List (String × String × Nat)
  cs : String
  cc : String
  lvl : Nat
  icb : Bool

/-- One iteration of the `for event in parser` loop of `extract_sections`
(markdown.rs 25-70), arm for arm. -/
def mdStep (st : MdState) (e : Event) : MdState :=
  match e with
  | .startHeading l =>
      { st with
        sections :=
          if st.cs.isEmpty then st.sections
          else st.sections ++ [(st.cs, strTrim st.cc, st.lvl)]
        cs := "", cc := "", lvl := l }
  | .endHeading => { st with cc := st.cs ++ "\n\n" }
  | .text t =>
      if st.cs.isEmpty ∧ 0 < st.lvl then { st with cs := t }
      else { st with cc := st.cc ++ t }
  | .code c => { st with cc := st.cc ++ "`" ++ c ++ "`" }
  | .startCodeBlock => { st with icb := true, cc := st.cc ++ "```\n" }
  | .endCodeBlock => { st with icb := false, cc := st.cc ++ "\n```\n" }
  | .softBreak => { st with cc := st.cc ++ (if st.icb then "\n" else " ") }
  | .hardBreak => { st with cc := st.cc ++ "\n" }
  | .other => st

/-- `MarkdownProvider::extract_sections` (markdown.rs 16-81): fold the
event stream, flush the pending section (markdown.rs 72-74), and fall back
to one `"Document"` section when nothing was produced and the raw document
is non-empty (markdown.rs 76-78). -/
def extract_sections (events : List Event) (markdown : String) :
    List (String × String × Nat) :=
  let st := events.foldl mdStep ⟨[], "", "", 0, false⟩
  let secs :=
    if ¬ st.cs.isEmpty ∨ ¬ st.cc.isEmpty then
      st.sections ++ [(st.cs, strTrim st.cc, st.lvl)]
    else st.sections
  if secs.isEmpty ∧ ¬ markdown.isEmpty then [("Document", markdown, 1)]
  else secs

/-- Chunk assembly of `MarkdownProvider::to_markdown_chunks`
(markdown.rs 102-124) for ordinal `i` and section `(title, content, level)`. -/
def md_chunk (i : Nat) (sec : String × String × Nat) : ContentChunk :=
  { id := "md_chunk_" ++ decimal i
    content :=
      if ¬ sec.1.isEmpty then
        String.mk (List.replicate sec.2.2 '#') ++ " " ++ sec.1 ++ "\n\n" ++
          sec.2.1
      else sec.2.1
    metadata := [("chunk_index", Json.num i),
      ("section_title", Json.str sec.1),
      ("heading_level", Json.num sec.2.2),
      ("source", Json.str "markdown")] }

/-- `MarkdownProvider::to_markdown_chunks` (markdown.rs 98-127) applied to
the decoded event stream plus the raw file content. -/
def markdown_to_markdown_chunks (events : List Event) (markdown : String) :
    List ContentChunk :=
  ((extract_sections events markdown).enum).map (fun p => md_chunk p.1 p.2)

/-! ## Recursive structured-tree chunking (json.rs 16-101) -/

/-- `"  ".repeat(indent)` (json.rs 17, 46). -/
def indentStr (indent : Nat) : String :=
  String.join (List.replicate indent "  ")

/-- `obj.contains_key("kind")` on the association-list object. -/
def containsKind (o : List (String × Json)) : Bool :=
  o.any (fun p => p.1 == "kind")

/-- `obj.get("kind").and_then(|v| v.as_str()).unwrap_or("Unknown")`
(json.rs 35). -/
def kindName (o : List (String × Json)) : String :=
  match List.lookup ("kind") o with
  | some (.str s) => s
  | _ => "Unknown"

/-- `obj.get("kind").cloned().unwrap_or(Value::Null)` (json.rs 70). -/
def kindVal (o : List (String × Json)) : Json :=
  (List.lookup ("kind") o).getD Json.null

mutual

/-- `JsonProvider::json_to_markdown` (json.rs 16-43). The `Value::Object`
arm inlines the body of `object_to_markdown` (join of the filtered entry
lines); the standalone wrapper `object_to_markdown` below carries the same
expression. -/
def json_to_markdown (v : Json) (indent : Nat) : String :=
  match v with
  | .null => "null"
  | .bool b => if b then "true" else "false"
  | .num n => intRepr n
  | .str s => "\"" ++ s ++ "\""
  | .arr a =>
      "[\n" ++ String.intercalate (",\n") (arrayLines a 0 indent) ++ "\n" ++
        indentStr indent ++ "]"
  | .obj o =>
      if containsKind o then
        "## " ++ kindName o ++ "\n" ++
          String.intercalate "\n"
            ((objectLines o indent).filter (fun s => ¬ s.isEmpty))
      else
        String.intercalate "\n"
          ((objectLines o indent).filter (fun s => ¬ s.isEmpty))

/-- The item lines of the `Value::Array` arm (json.rs 25-29): each line is
prefixed by the current `indent_str` and recurses at `indent + 1`. -/
def arrayLines (a : List Json) (i indent : Nat) : List String :=
  match a with
  | [] => []
  | v :: rest =>
      (indentStr indent ++ "[" ++ decimal i ++ "]: " ++
        json_to_markdown v (indent + 1)) :: arrayLines rest (i + 1) indent

/-- The per-entry strings of `object_to_markdown` (json.rs 47-56). -/
def objectLines (o : List (String × Json)) (indent : Nat) : List String :=
  match o with
  | [] => []
  | (k, v) :: rest =>
      (if k = "kind" then ""
       else indentStr indent ++ "- **" ++ k ++ "**: " ++
         json_to_markdown v (indent + 1)) :: objectLines rest indent

end

/-- `JsonProvider::object_to_markdown` (json.rs 45-59): entry lines with
the `kind` entry rendered empty, the empty lines filtered out, joined by
newlines. -/
def object_to_markdown (o : List (String × Json)) (indent : Nat) : String :=
  String.intercalate "\n" ((objectLines o indent).filter (fun s => ¬ s.isEmpty))

mutual

/-- `JsonProvider::extract_chunks` (json.rs 61-100): collect a chunk for
every object bearing a `kind` key, recurse into object entries and array
elements, and fall back to a single-value chunk when nothing was collected
and the path is non-empty. -/
def json_extract_chunks (v : Json) (path : String) :
    List (String × String × List (String × Json)) :=
  let chunks :=
    match v with
    | .obj o =>
        (if containsKind o then
          [(path, json_to_markdown v 0,
            [("path", Json.str path), ("kind", kindVal o)])]
         else []) ++ objChunks o path
    | .arr a => arrChunks a path 0
    | _ => []
  if chunks.isEmpty ∧ ¬ path.isEmpty then
    [(path, json_to_markdown v 0, [("path", Json.str path)])]
  else chunks

/-- The `for (key, val) in obj` recursion of `extract_chunks`
(json.rs 74-81), extending the dotted path. -/
def objChunks (o : List (String × Json)) (path : String) :
    List (String × String × List (String × Json)) :=
  match o with
  | [] => []
  | (k, v) :: rest =>
      json_extract_chunks v (if path.isEmpty then k else path ++ "." ++ k) ++
        objChunks rest path

/-- The `for (i, val) in arr` recursion of `extract_chunks`
(json.rs 83-88), extending the path with a bracketed index. -/
def arrChunks (a : List Json) (path : String) (i : Nat) :
    List (String × String × List (String × Json)) :=
  match a with
  | [] => []
  | v :: rest =>
      json_extract_chunks v (path ++ "[" ++ decimal i ++ "]") ++
        arrChunks rest path (i + 1)

end

/-- The id sanitisation of json.rs 131:
`path.replace('.', "_").replace('[', "").replace(']', "")`. -/
def sanitizePath (p : String) : String :=
  replaceChar ']' "" (replaceChar '[' "" (replaceChar '.' "_" p))

/-- Chunk assembly of `JsonProvider::to_markdown_chunks` (json.rs 123-136)
for ordinal `i` and raw chunk `(path, content, metadata)`. -/
def json_chunk (i : Nat) (rc : String × String × List (String × Json)) :
    ContentChunk :=
  { id := "json_chunk_" ++ decimal i ++ "_" ++ sanitizePath rc.1
    content := rc.2.1
    metadata :=
      hashInsert (hashInsert rc.2.2 ("chunk_index") (Json.num i))
        ("source") (Json.str "json") }

/-- `JsonProvider::to_markdown_chunks` (json.rs 117-139) applied to the
parsed JSON value. -/
def json_to_markdown_chunks (v : Json) : List ContentChunk :=
  ((json_extract_chunks v "").enum).map (fun p => json_chunk p.1 p.2)

/-- Scalar JSON documents: no object and no array anywhere (the bare
scalars of claim C5). -/
def isScalar : Json → Bool
  | .obj _ => false
  | .arr _ => false
  | _ => true

/-! ## Fixed-duration audio segmentation (audio.rs 23-35) -/

/-- One iteration per fuel unit of the `while start < samples.len()` loop
of `segment_audio`: push `(start, min (start + sps) len)` and advance
`start` to the segment end. The loop is fuelled because it does not
terminate when `samples_per_segment = 0` and `len > 0`; a fuel of
`len + 1` is exhausted only in that diverging case. -/
def segAux (len sps : Nat) : Nat → Nat → List (Nat × Nat)
  | 0, _ => []
  | Nat.succ f, start =>
      if start < len then
        (start, min (start + sps) len) :: segAux len sps f (min (start + sps) len)
      else []

/-- `AudioProvider::segment_audio` (audio.rs 23-35) on the sample count
`len` and the already-computed samples-per-segment count `sps`. -/
def segment_audio (len sps : Nat) : List (Nat × Nat) :=
  segAux len sps (len + 1) 0

/-- The samples-per-segment computation of audio.rs 24,
`(sample_rate as f32 * segment_duration_secs) as usize`: the product in
exact arithmetic, truncated toward zero. It coincides with the `f32`
computation whenever `rate`, `duration` and their product are exactly
representable in `f32` (true at every input used in this development). -/
def sps_of_rate_duration (rate : Nat) (duration : ℚ) : Nat :=
  (⌊(rate : ℚ) * duration⌋).toNat

/-- The whole-second part of the `{:.1}` rendering of
`sample_index as f32 / sample_rate as f32` in the audio chunk summary
(audio.rs 80-81): integral quotient and one truncated decimal. It
approximates the round-to-nearest `f32` formatting; no theorem below
depends on audio chunk content. -/
def formatSeconds (sampleIndex rate : Nat) : String :=
  decimal (sampleIndex / rate) ++ "." ++ decimal ((sampleIndex * 10 / rate) % 10)

/-- Chunk assembly of `AudioProvider::to_markdown_chunks` (audio.rs 64-91)
for ordinal `i` and segment `(start, stop)`. -/
def audio_chunk (i : Nat) (seg : Nat × Nat) (rate channels bits : Nat) :
    ContentChunk :=
  { id := "audio_segment_" ++ decimal i
    content := "## Audio Segment " ++ decimal (i + 1) ++ "\n\n**Duration:** " ++
      formatSeconds seg.1 rate ++ "s - " ++ formatSeconds seg.2 rate ++
      "s  \n**Samples:** " ++ decimal seg.1 ++ " - " ++ decimal seg.2 ++
      "  \n**Sample Rate:** " ++ decimal rate ++ " Hz  \n**Channels:** " ++
      decimal channels ++ "  \n**Bit Depth:** " ++ decimal bits ++
      " bits\n\n*[Audio content analysis would go here - transcription, audio features, etc.]*"
    metadata := [("segment_index", Json.num i),
      ("start_sample", Json.num seg.1), ("end_sample", Json.num seg.2),
      ("sample_rate", Json.num rate), ("channels", Json.num channels),
      ("bits_per_sample", Json.num bits)] }

/-- The chunk-building map of `AudioProvider::to_markdown_chunks`
(audio.rs 64-91) over an arbitrary segment list. -/
def audio_chunks (segments : List (Nat × Nat)) (rate channels bits : Nat) :
    List ContentChunk :=
  (segments.enum).map (fun p => audio_chunk p.1 p.2 rate channels bits)

/-! ## Concrete decoder outputs used by the scenario claims -/

/-- The parsed value of the document `{"kind":"Doc","title":"T"}`
(`serde_json` yields the entries in ascending key order). -/
def kindDocJson : Json :=
  Json.obj [("kind", Json.str "Doc"), ("title", Json.str "T")]

/-- The scenario document of claim C6. -/
def scenarioDoc : String := "# A\n\n## B\n\n## C\n\n### D"

/-- The `pulldown_cmark` event stream for `scenarioDoc`: each ATX heading
yields a start event carrying its level, its title text, and an end
event. -/
def scenarioEvents : List Event :=
  [.startHeading 1, .text "A", .endHeading,
   .startHeading 2, .text "B", .endHeading,
   .startHeading 2, .text "C", .endHeading,
   .startHeading 3, .text "D", .endHeading]

/-- The `pulldown_cmark` event stream for the heading-free document
`"a\n\nb"`: two paragraphs, each a bare text event (paragraph delimiters
fall under `other` arms the fold ignores and are omitted). -/
def twoParagraphEvents : List Event := [.text "a", .text "b"]

/-- The `pulldown_cmark` event stream for the document `"#\n\n## x"`: an
ATX heading with an empty title produces a start/end pair with no text
event between them. -/
def emptyTitleEvents : List Event :=
  [.startHeading 1, .endHeading, .startHeading 2, .text "x", .endHeading]

/-- An event stream may not contain heading events (the fold arms of
markdown.rs 27 and 35). -/
def isHeadingEvent : Event → Bool
  | .startHeading _ => true
  | .endHeading => true
  | _ => false

/-- The event stream of one well-formed heading section: the heading start
carrying level `g.1`, its title text `g.2.1`, the heading end, then the
body events `g.2.2`. -/
def headingGroup (g : Nat × String × List Event) : List Event :=
  Event.startHeading g.1 :: Event.text g.2.1 :: Event.endHeading :: g.2.2

/-- The event stream of a document made of a preamble followed by heading
sections. -/
def headingDoc (pre : List Event) (groups : List (Nat × String × List Event)) :
    List Event :=
  pre ++ (groups.map headingGroup).flatten

/-- Well-formedness of a heading section for claim C6: non-empty title,
positive heading level (`pulldown_cmark` levels are 1-6), and no heading
events in the body. -/
def goodGroup (g : Nat × String × List Event) : Prop :=
  ¬ g.2.1.isEmpty ∧ 0 < g.1 ∧ g.2.2.all (fun e => ¬ isHeadingEvent e)

/-! ## Auxiliary functions for the proofs -/

/-- The numeric value of a decimal digit character. -/
def charVal (c : Char) : Nat :=
  c.toNat - 48

/-- The numeric value of a decimal digit list, most significant first. -/
def listVal (a : Nat) (l : List Char) : Nat :=
  l.foldl (fun acc c => 10 * acc + charVal c) a

/-! # Theorems

## Decimal numerals -/

theorem natCharsAux_succ (f n : Nat) :
    natCharsAux (f + 1) n =
      if n < 10 then [Nat.digitChar n]
      else natCharsAux f (n / 10) ++ [Nat.digitChar (n % 10)] := rfl

theorem natCharsAux_fuel :
    ∀ (n f : Nat), n < f → natCharsAux f n = natChars n := by
  intro n
  induction n using Nat.strong_induction_on with
  | _ n ih =>
    intro f hf
    cases f with
    | zero => omega
    | succ f =>
      by_cases h : n < 10
      · simp [natCharsAux_succ, natChars, h]
      · have h1 : n / 10 < n := Nat.div_lt_self (by omega) (by omega)
        rw [natChars, natCharsAux_succ, natCharsAux_succ, if_neg h, if_neg h,
          ih _ h1 _ (by omega), ih _ h1 _ (by omega)]

theorem natChars_eq (n : Nat) :
    natChars n =
      if n < 10 then [Nat.digitChar n]
      else natChars (n / 10) ++ [Nat.digitChar (n % 10)] := by
  rw [natChars, natCharsAux_succ]
  by_cases h : n < 10
  · simp [h]
  · rw [if_neg h, if_neg h, natCharsAux_fuel _ _ (Nat.div_lt_self (by omega) (by omega))]

theorem digitChar_isDigit {d : Nat} (h : d < 10) :
    (Nat.digitChar d).isDigit = true := by
  interval_cases d <;> decide

theorem charVal_digitChar {d : Nat} (h : d < 10) :
    charVal (Nat.digitChar d) = d := by
  interval_cases d <;> decide

theorem natChars_all_digits (n : Nat) :
    ∀ c ∈ natChars n, c.isDigit = true := by
  induction n using Nat.strong_induction_on with
  | _ n ih =>
    rw [natChars_eq]
    by_cases h : n < 10
    · rw [if_pos h]
      intro c hc
      rw [List.mem_singleton.mp hc]
      exact digitChar_isDigit h
    · rw [if_neg h]
      intro c hc
      rcases List.mem_append.mp hc with h2 | h2
      · exact ih _ (Nat.div_lt_self (by omega) (by omega)) c h2
      · rw [List.mem_singleton.mp h2]
        exact digitChar_isDigit (Nat.mod_lt _ (by omega))

theorem listVal_natChars (n : Nat) :
    ∀ a, listVal a (natChars n) = a * 10 ^ (natChars n).length + n := by
  induction n using Nat.strong_induction_on with
  | _ n ih =>
    intro a
    rw [natChars_eq]
    by_cases h : n < 10
    · rw [if_pos h]
      simp [listVal, charVal_digitChar h]
      ring
    · rw [if_neg h]
      rw [listVal, List.foldl_append]
      have h1 : n / 10 < n := Nat.div_lt_self (by omega) (by omega)
      have h2 := ih _ h1 a
      rw [listVal] at h2
      rw [h2]
      simp only [List.foldl_cons, List.foldl_nil, List.length_append,
        List.length_singleton]
      rw [charVal_digitChar (Nat.mod_lt _ (by omega))]
      have e1 : 10 * (a * 10 ^ (natChars (n / 10)).length + n / 10) + n % 10 =
          a * (10 ^ (natChars (n / 10)).length * 10) + (10 * (n / 10) + n % 10) := by
        ring
      rw [e1, Nat.div_add_mod, ← pow_succ]

theorem natChars_inj {m n : Nat} (h : natChars m = natChars n) : m = n := by
  have h1 := listVal_natChars m 0
  have h2 := listVal_natChars n 0
  rw [h, h2] at h1
  simpa using h1.symm

theorem natChars_ne_nil (n : Nat) : natChars n ≠ [] := by
  rw [natChars_eq]
  split <;> simp

/-- Two digit strings followed by an underscore separator and arbitrary
tails determine the digit strings and the tails. -/
theorem digits_sep_inj :
    ∀ (a : List Char), (∀ c ∈ a, c.isDigit = true) →
    ∀ (b : List Char), (∀ c ∈ b, c.isDigit = true) →
    ∀ (p q : List Char), a ++ '_' :: p = b ++ '_' :: q → a = b ∧ p = q := by
  intro a
  induction a with
  | nil =>
    intro _ b hb p q h
    cases b with
    | nil =>
      simp only [List.nil_append] at h
      exact ⟨rfl, (List.cons.injEq _ _ _ _ ▸ h).2⟩
    | cons d b' =>
      simp only [List.nil_append, List.cons_append, List.cons.injEq] at h
      have hd := hb d (by simp)
      rw [← h.1] at hd
      simp at hd
  | cons c a' ih =>
    intro ha b hb p q h
    cases b with
    | nil =>
      simp only [List.cons_append, List.nil_append, List.cons.injEq] at h
      have hc := ha c (by simp)
      rw [h.1] at hc
      simp at hc
    | cons d b' =>
      simp only [List.cons_append, List.cons.injEq] at h
      obtain ⟨h1, h2⟩ := h
      subst h1
      obtain ⟨e1, e2⟩ := ih (fun x hx => ha x (by simp [hx])) b'
        (fun x hx => hb x (by simp [hx])) p q h2
      exact ⟨by rw [e1], e2⟩

theorem decimal_sep_inj {i j : Nat} {p q : List Char}
    (h : natChars i ++ '_' :: p = natChars j ++ '_' :: q) : i = j ∧ p = q := by
  obtain ⟨h1, h2⟩ := digits_sep_inj _ (natChars_all_digits i) _
    (natChars_all_digits j) p q h
  exact ⟨natChars_inj h1, h2⟩

/-! ## String-level identifier lemmas -/

theorem data_append (a b : String) : (a ++ b).data = a.data ++ b.data := rfl

theorem prefix_decimal_inj (pre : String) {i j : Nat}
    (h : pre ++ decimal i = pre ++ decimal j) : i = j := by
  have h1 : (pre ++ decimal i).data = (pre ++ decimal j).data := by rw [h]
  rw [data_append, data_append] at h1
  exact natChars_inj (List.append_cancel_left h1)

theorem json_id_inj {i j : Nat} {s t : String}
    (h : "json_chunk_" ++ decimal i ++ "_" ++ s =
         "json_chunk_" ++ decimal j ++ "_" ++ t) : i = j := by
  have h1 : ("json_chunk_" ++ decimal i ++ "_" ++ s).data =
      ("json_chunk_" ++ decimal j ++ "_" ++ t).data := by rw [h]
  simp only [data_append, List.append_assoc] at h1
  have h2 := List.append_cancel_left h1
  simp only [List.singleton_append] at h2
  exact (decimal_sep_inj h2).1

theorem append_ne_empty (a b : String) (h : a.data ≠ []) : a ++ b ≠ "" := by
  intro he
  have h1 : (a ++ b).data = [] := by rw [he]
  rw [data_append] at h1
  exact h (List.append_eq_nil.mp h1).1

/-! ## Enumeration lemmas -/

theorem mem_enumFrom_le {α : Type} :
    ∀ (l : List α) (n : Nat) (p : Nat × α), p ∈ l.enumFrom n → n ≤ p.1 := by
  intro l
  induction l with
  | nil => simp [List.enumFrom]
  | cons x xs ih =>
    intro n p hp
    rw [List.enumFrom] at hp
    rcases List.mem_cons.mp hp with h | h
    · rw [h]
    · have := ih (n + 1) p h
      omega

/-- Mapping an index-injective function over an enumerated list yields
pairwise-distinct results. -/
theorem nodup_map_enumFrom {α β : Type} (g : Nat → α → β)
    (hg : ∀ i x j y, g i x = g j y → i = j) :
    ∀ (l : List α) (n : Nat),
      ((l.enumFrom n).map (fun p => g p.1 p.2)).Nodup := by
  intro l
  induction l with
  | nil => simp [List.enumFrom]
  | cons x xs ih =>
    intro n
    rw [List.enumFrom]
    simp only [List.map_cons, List.nodup_cons]
    refine ⟨fun hmem => ?_, ih (n + 1)⟩
    obtain ⟨p, hp, he⟩ := List.mem_map.mp hmem
    have h1 := mem_enumFrom_le xs (n + 1) p hp
    have h2 := hg _ _ _ _ he.symm
    omega

/-! ## Claim C1 — error handling of `process_content` -/

/-- C1 counterexample: when chunk extraction fails, `process_content` does
not return a `ContentProcessingResult` with `success = false`; the `?`
operator propagates the failure to the caller as an error. -/
theorem C1_counterexample :
    process_content (Except.error "decode error")
      (Except.ok (pdf_to_metadata (some "a.pdf") 10)) =
      Except.error "decode error" ∧
    (process_content (Except.error "decode error")
      (Except.ok (pdf_to_metadata (some "a.pdf") 10))).isOk = false :=
  ⟨rfl, rfl⟩

/-- C1 (amended): if either chunk extraction or metadata extraction fails
inside `process_content`, the failure is propagated to the caller as an
error carrying that error's message; no `success = false` result is
constructed. -/
theorem C1_failure_propagates :
    (∀ (e : String) (mR : Except String ContentMetadata),
      process_content (Except.error e) mR = Except.error e) ∧
    (∀ (cs : List ContentChunk) (e : String),
      process_content (Except.ok cs) (Except.error e) = Except.error e) :=
  ⟨fun _ _ => rfl, fun _ _ => rfl⟩

/-! ## Claim C10 — every returned result is successful -/

/-- C10: whenever `process_content` returns a result at all (rather than
an error), that result has `success = true` and `error = None`; in
particular `success = true ⇔ error = None` holds for every result the
engine produces. -/
theorem C10_results_always_successful :
    ∀ (cR : Except String (List ContentChunk))
      (mR : Except String ContentMetadata) (r : ContentProcessingResult),
      process_content cR mR = Except.ok r →
      r.success = true ∧ r.error = none := by
  intro cR mR r h
  cases cR with
  | error e =>
    have h1 : (Except.error e : Except String ContentProcessingResult) =
        Except.ok r := h
    exact absurd h1 (by simp)
  | ok cs =>
    cases mR with
    | error e =>
      have h1 : (Except.error e : Except String ContentProcessingResult) =
          Except.ok r := h
      exact absurd h1 (by simp)
    | ok md =>
      have h1 : (Except.ok ⟨true, cs, md, none⟩ :
          Except String ContentProcessingResult) = Except.ok r := h
      rw [← Except.ok.inj h1]
      exact ⟨rfl, rfl⟩

/-- C10 witness at a concrete successful run. -/
theorem C10_witness :
    ({ success := true, chunks := [], metadata := pdf_to_metadata none 0,
       error := none } : ContentProcessingResult).success = true ∧
    ({ success := true, chunks := [], metadata := pdf_to_metadata none 0,
       error := none } : ContentProcessingResult).error = none :=
  C10_results_always_successful (Except.ok []) (Except.ok (pdf_to_metadata none 0))
    _ rfl

/-! ## Claim C2 — structured-data chunking of `{"kind":"Doc","title":"T"}` -/

/-- C2 counterexample: the document `{"kind":"Doc","title":"T"}` produces
three chunks (the `kind`-object chunk plus one leaf chunk for each of the
two fields), not exactly one. -/
theorem C2_counterexample :
    (json_to_markdown_chunks kindDocJson).length = 3 ∧ 3 ≠ 1 :=
  ⟨rfl, by decide⟩

/-- C2 (amended): the document `{"kind":"Doc","title":"T"}` produces
exactly three chunks; the first is the `kind`-object chunk, whose content
starts with `"## Doc"` and whose metadata maps `"kind"` to `"Doc"`, and
the other two are the leaf chunks of the `kind` and `title` fields. -/
theorem C2_kind_doc_chunks :
    json_to_markdown_chunks kindDocJson =
      [⟨"json_chunk_0_", "## Doc" ++ "\n- **title**: \"T\"",
        [("path", Json.str ""), ("kind", Json.str "Doc"),
         ("chunk_index", Json.num 0), ("source", Json.str "json")]⟩,
       ⟨"json_chunk_1_kind", "\"Doc\"",
        [("path", Json.str "kind"), ("chunk_index", Json.num 1),
         ("source", Json.str "json")]⟩,
       ⟨"json_chunk_2_title", "\"T\"",
        [("path", Json.str "title"), ("chunk_index", Json.num 2),
         ("source", Json.str "json")]⟩] ∧
    List.lookup ("kind")
      [("path", Json.str ""), ("kind", Json.str "Doc"),
       ("chunk_index", Json.num 0), ("source", Json.str "json")] =
      some (Json.str "Doc") :=
  ⟨rfl, rfl⟩

/-! ## Claim C5 — bare scalar JSON documents -/

/-- C5 counterexample: the bare scalar document `42` produces zero chunks,
not one chunk with an empty path: the whole-document fallback of
`extract_chunks` fires only at a non-empty path, and the root path is
empty. -/
theorem C5_counterexample :
    json_to_markdown_chunks (Json.num 42) = [] ∧
    (json_to_markdown_chunks (Json.num 42)).length ≠ 1 :=
  ⟨rfl, by rw [show json_to_markdown_chunks (Json.num 42) = [] from rfl]; decide⟩

/-- C5 (amended): a JSON document whose recursive walk emits zero
kind-chunks and zero leaf chunks — a bare scalar document — produces no
chunks at all: the empty-path guard prevents the whole-document fallback
at the root. -/
theorem C5_bare_scalar_no_chunks :
    ∀ v : Json, isScalar v = true →
      json_extract_chunks v "" = [] ∧ json_to_markdown_chunks v = [] := by
  intro v hv
  match v with
  | .null => exact ⟨rfl, rfl⟩
  | .bool b => exact ⟨rfl, rfl⟩
  | .num n => exact ⟨rfl, rfl⟩
  | .str s => exact ⟨rfl, rfl⟩
  | .arr a => simp [isScalar] at hv
  | .obj o => simp [isScalar] at hv

/-- C5 witness at the bare scalar document `42`. -/
theorem C5_witness :
    json_extract_chunks (Json.num 42) "" = [] ∧
    json_to_markdown_chunks (Json.num 42) = [] :=
  C5_bare_scalar_no_chunks (Json.num 42) rfl

/-! ## Claim C8 — registry lookup -/

/-- C8: extension lookup is case-insensitive (it depends only on the
lowercased extension, so any two case variants resolve to the same
provider instance), and both lookups return an empty result — never an
error — outside the fixed table. -/
theorem C8_registry_lookup :
    (∀ e₁ e₂ : String, strToLower e₁ = strToLower e₂ →
      get_provider_by_extension e₁ = get_provider_by_extension e₂) ∧
    (∀ e : String,
      strToLower e ∉ (["pdf", "wav", "docx", "json", "md", "markdown"] : List String) →
      get_provider_by_extension e = none) ∧
    (∀ ct : ContentType,
      ct ∉ ([ContentType.Pdf, ContentType.Audio, ContentType.Document,
             ContentType.StructuredData, ContentType.Markdown] : List ContentType) →
      get_provider ct = none) := by
  refine ⟨?_, ?_, ?_⟩
  · intro e₁ e₂ h
    rw [get_provider_by_extension, get_provider_by_extension, h]
  · intro e he
    simp only [List.mem_cons, List.not_mem_nil, or_false, not_or] at he
    obtain ⟨h1, h2, h3, h4, h5, h6⟩ := he
    have h : content_type_for_extension (strToLower e) = none := by
      rw [content_type_for_extension]
      rw [if_neg h1, if_neg h2, if_neg h3, if_neg h4, if_neg (by tauto)]
    rw [get_provider_by_extension, h]
  · intro ct hct
    cases ct <;> first
      | rfl
      | exact absurd (by simp) hct

/-- C8 witness: `"PDF"` and `"pdf"` resolve identically, `"txt"` resolves
to nothing, and so does the unregistered content type `Video`. -/
theorem C8_witness :
    get_provider_by_extension "PDF" = get_provider_by_extension "pdf" ∧
    get_provider_by_extension "txt" = none ∧
    get_provider ContentType.Video = none :=
  ⟨C8_registry_lookup.1 "PDF" "pdf" rfl,
   C8_registry_lookup.2.1 "txt" (by decide),
   C8_registry_lookup.2.2 ContentType.Video (by decide)⟩

/-! ## Sliding-window chunking lemmas -/

theorem chunkTextAux_succ (C O f : Nat) (rest : List Char) :
    chunkTextAux C O (f + 1) rest =
      if rest.isEmpty then []
      else if rest.length ≤ C then [rest]
      else rest.take C :: chunkTextAux C O f (rest.drop (C - O)) := rfl

/-- Any fuel exceeding the suffix length computes `chunk_text` (so the
`length + 1` fuel of `chunk_text` never runs out when `O < C`). -/
theorem chunkTextAux_fuel (C O : Nat) (hO : O < C) :
    ∀ (f : Nat) (rest : List Char), rest.length < f →
      chunkTextAux C O f rest = chunk_text rest C O := by
  intro f
  induction f using Nat.strong_induction_on with
  | _ f ih =>
    intro rest h
    cases f with
    | zero => omega
    | succ f =>
      rw [chunk_text, chunkTextAux_succ, chunkTextAux_succ]
      by_cases h1 : rest.isEmpty
      · rw [if_pos h1, if_pos h1]
      · rw [if_neg h1, if_neg h1]
        by_cases h2 : rest.length ≤ C
        · rw [if_pos h2, if_pos h2]
        · rw [if_neg h2, if_neg h2]
          have hd : (rest.drop (C - O)).length < rest.length := by
            rw [List.length_drop]
            omega
          rw [ih f (by omega) _ (by omega),
              ih rest.length (by omega) _ (by omega)]

theorem chunk_text_small {rest : List Char} {C O : Nat} (h1 : rest ≠ [])
    (h2 : rest.length ≤ C) : chunk_text rest C O = [rest] := by
  rw [chunk_text, chunkTextAux_succ,
    if_neg (by simpa [List.isEmpty_iff] using h1), if_pos h2]

theorem chunk_text_step {rest : List Char} {C O : Nat} (hO : O < C)
    (h : C < rest.length) :
    chunk_text rest C O =
      rest.take C :: chunk_text (rest.drop (C - O)) C O := by
  have h1 : ¬ rest.isEmpty = true := by
    rw [List.isEmpty_iff]
    intro he
    rw [he] at h
    simp at h
  rw [chunk_text, chunkTextAux_succ, if_neg h1, if_neg (by omega)]
  rw [chunkTextAux_fuel C O hO rest.length _ (by rw [List.length_drop]; omega)]

theorem chunk_text_ne_nil {t : List Char} {C O : Nat} (hO : O < C)
    (h : t ≠ []) : chunk_text t C O ≠ [] := by
  by_cases h2 : t.length ≤ C
  · rw [chunk_text_small h h2]
    simp
  · rw [chunk_text_step hO (by omega)]
    simp

theorem prefixJoin_cons₂ (O : Nat) (c d : List Char) (rest : List (List Char)) :
    prefixJoin O (c :: d :: rest) =
      c.take (c.length - O) ++ prefixJoin O (d :: rest) := rfl

theorem prefixJoin_chunk_text_aux (C O : Nat) (hO : O < C) :
    ∀ (n : Nat) (t : List Char), t.length ≤ n →
      prefixJoin O (chunk_text t C O) = t := by
  intro n
  induction n with
  | zero =>
    intro t h
    have h0 : t = [] := List.length_eq_zero.mp (by omega)
    subst h0
    rfl
  | succ n ih =>
    intro t h
    rcases eq_or_ne t [] with rfl | hne
    · rfl
    · by_cases h2 : t.length ≤ C
      · rw [chunk_text_small hne h2]
        rfl
      · have hx := ih (t.drop (C - O)) (by rw [List.length_drop]; omega)
        have hnn : chunk_text (t.drop (C - O)) C O ≠ [] := by
          refine chunk_text_ne_nil hO ?_
          intro he
          have := congrArg List.length he
          rw [List.length_drop] at this
          simp at this
          omega
        obtain ⟨b, l', hbl⟩ := List.exists_cons_of_ne_nil hnn
        rw [hbl] at hx
        rw [chunk_text_step hO (by omega), hbl, prefixJoin_cons₂, hx,
          List.length_take, min_eq_left (by omega), List.take_take,
          min_eq_left (by omega), List.take_append_drop]

theorem chunk_text_lengths_aux (C O : Nat) (hO : O < C) :
    ∀ (n : Nat) (t : List Char), t.length ≤ n →
      ∀ c ∈ (chunk_text t C O).dropLast, c.length = C := by
  intro n
  induction n with
  | zero =>
    intro t h
    have h0 : t = [] := List.length_eq_zero.mp (by omega)
    subst h0
    simp [chunk_text, chunkTextAux]
  | succ n ih =>
    intro t h
    rcases eq_or_ne t [] with rfl | hne
    · simp [chunk_text, chunkTextAux]
    · by_cases h2 : t.length ≤ C
      · rw [chunk_text_small hne h2]
        simp
      · have hnn : chunk_text (t.drop (C - O)) C O ≠ [] := by
          refine chunk_text_ne_nil hO ?_
          intro he
          have := congrArg List.length he
          rw [List.length_drop] at this
          simp at this
          omega
        obtain ⟨b, l', hbl⟩ := List.exists_cons_of_ne_nil hnn
        rw [chunk_text_step hO (by omega), hbl]
        intro c hc
        rw [List.dropLast_cons₂, List.mem_cons] at hc
        rcases hc with hc | hc
        · rw [hc, List.length_take]
          omega
        · have := ih (t.drop (C - O)) (by rw [List.length_drop]; omega) c
          rw [hbl] at this
          exact this hc

/-! ## Claim C3 — sliding-window chunking -/

/-- C3 counterexample: the empty text produces zero chunks, not one chunk
equal to the (empty) text. -/
theorem C3_counterexample :
    chunk_text [] 1000 200 = [] ∧ (chunk_text [] 1000 200).length ≠ 1 :=
  ⟨rfl, by decide⟩

/-- C3 (amended): for every text and `chunk_size C > overlap O ≥ 0`,
concatenating each chunk's non-overlapping prefix reconstructs the text
exactly, every chunk except the last has length exactly `C`, and a
**non-empty** text of length ≤ C yields exactly one chunk equal to the
text; the empty text yields no chunks at all (the `while start < len` loop
never runs). -/
theorem C3_sliding_window (t : List Char) (C O : Nat) (hO : O < C) :
    prefixJoin O (chunk_text t C O) = t ∧
    (∀ c ∈ (chunk_text t C O).dropLast, c.length = C) ∧
    (t ≠ [] → t.length ≤ C → chunk_text t C O = [t]) ∧
    chunk_text ([] : List Char) C O = [] :=
  ⟨prefixJoin_chunk_text_aux C O hO t.length t le_rfl,
   chunk_text_lengths_aux C O hO t.length t le_rfl,
   fun h1 h2 => chunk_text_small h1 h2,
   rfl⟩

/-- C3 witness at the text `"abc"` with `C = 2`, `O = 1`. -/
theorem C3_witness :
    prefixJoin 1 (chunk_text ['a', 'b', 'c'] 2 1) = ['a', 'b', 'c'] ∧
    chunk_text ['a'] 2 1 = [['a']] :=
  ⟨(C3_sliding_window ['a', 'b', 'c'] 2 1 (by decide)).1,
   (C3_sliding_window ['a'] 2 1 (by decide)).2.2.1 (by decide) (by decide)⟩

/-! ## Audio segmentation lemmas -/

theorem segAux_succ (len sps f start : Nat) :
    segAux len sps (f + 1) start =
      if start < len then
        (start, min (start + sps) len) ::
          segAux len sps f (min (start + sps) len)
      else [] := rfl

theorem segAux_stop (len sps f start : Nat) (h : ¬ start < len) :
    segAux len sps f start = [] := by
  cases f with
  | zero => rfl
  | succ f => rw [segAux_succ, if_neg h]

/-- Full characterisation of the segment list produced from `start`:
segment count, first start, last end, contiguity, and bounds. -/
theorem segAux_spec (len sps : Nat) (hsps : 1 ≤ sps) :
    ∀ (f start : Nat), len - start < f →
      (segAux len sps f start).length = (len - start + sps - 1) / sps ∧
      ((segAux len sps f start).head?.map Prod.fst =
        if start < len then some start else none) ∧
      ((segAux len sps f start).getLast?.map (fun p => p.2) =
        if start < len then some len else none) ∧
      List.Chain' (fun a b => a.2 = b.1) (segAux len sps f start) ∧
      (∀ p ∈ segAux len sps f start, p.1 < p.2 ∧ p.2 ≤ len) := by
  intro f
  induction f with
  | zero =>
    intro start h
    omega
  | succ f ih =>
    intro start h
    by_cases hs : start < len
    · have he1 : start < min (start + sps) len := by omega
      have he2 : min (start + sps) len ≤ len := by omega
      have hf : len - min (start + sps) len < f := by omega
      obtain ⟨ihl, ihh, ihg, ihc, ihm⟩ := ih (min (start + sps) len) hf
      rw [segAux_succ, if_pos hs]
      refine ⟨?_, ?_, ?_, ?_, ?_⟩
      · simp only [List.length_cons, ihl]
        by_cases hcase : start + sps ≤ len
        · have hee : min (start + sps) len = start + sps := by omega
          rw [hee]
          have e1 : len - start + sps - 1 = (len - (start + sps) + sps - 1) + sps := by
            omega
          rw [e1, Nat.add_div_right _ (by omega)]
        · have hee : min (start + sps) len = len := by omega
          rw [hee]
          have e2 : len - len + sps - 1 = sps - 1 := by omega
          have e3 : len - start + sps - 1 = (len - start - 1) + sps := by omega
          rw [e2, e3, Nat.add_div_right _ (by omega),
            Nat.div_eq_of_lt (by omega), Nat.div_eq_of_lt (by omega)]
      · rw [if_pos hs]
        rfl
      · rw [if_pos hs]
        by_cases hel : min (start + sps) len < len
        · rw [if_pos hel] at ihg
          have hnn : segAux len sps f (min (start + sps) len) ≠ [] := by
            intro hnil
            rw [hnil, if_pos hel] at ihh
            simp at ihh
          obtain ⟨b, l', hbl⟩ := List.exists_cons_of_ne_nil hnn
          rw [hbl, List.getLast?_cons_cons]
          rw [hbl] at ihg
          exact ihg
        · have hnil : segAux len sps f (min (start + sps) len) = [] :=
            segAux_stop _ _ _ _ hel
          rw [hnil]
          have hee : min (start + sps) len = len := by omega
          simp [hee]
      · rw [List.chain'_cons']
        refine ⟨?_, ihc⟩
        intro b hb
        by_cases hel : min (start + sps) len < len
        · rw [if_pos hel] at ihh
          cases hhead : (segAux len sps f (min (start + sps) len)).head? with
          | none =>
            rw [hhead] at hb
            simp at hb
          | some b' =>
            rw [hhead] at hb ihh
            simp only [Option.map_some', Option.some.injEq] at ihh
            simp only [Option.mem_def, Option.some.injEq] at hb
            subst hb
            exact ihh.symm
        · have hnil : segAux len sps f (min (start + sps) len) = [] :=
            segAux_stop _ _ _ _ hel
          rw [hnil] at hb
          simp at hb
      · intro p hp
        rcases List.mem_cons.mp hp with rfl | hp
        · exact ⟨he1, he2⟩
        · exact ihm p hp
    · rw [segAux_succ, if_neg hs]
      refine ⟨?_, ?_, ?_, ?_, ?_⟩
      · have : len - start + sps - 1 < sps := by omega
        rw [Nat.div_eq_of_lt this]
        rfl
      · rw [if_neg hs]
        rfl
      · rw [if_neg hs]
        rfl
      · exact List.chain'_nil
      · intro p hp
        simp at hp

/-! ## Claim C7 — fixed-duration audio segmentation -/

/-- C7 counterexample: with `N = 3` samples, rate `R = 3` and duration
`D = 0.5`, the code truncates `R×D = 1.5` to one sample per segment and
produces three segments, while the claimed formula `ceil(N/(R×D))`
predicts two. -/
theorem C7_counterexample :
    segment_audio 3 (sps_of_rate_duration 3 (1 / 2)) = [(0, 1), (1, 2), (2, 3)] ∧
    (3 : ℚ) / ((3 : ℚ) * (1 / 2)) = 2 ∧
    (segment_audio 3 (sps_of_rate_duration 3 (1 / 2))).length ≠ 2 := by
  have hsps : sps_of_rate_duration 3 (1 / 2) = 1 := by
    rw [sps_of_rate_duration]
    have h3 : ((3 : Nat) : ℚ) * (1 / 2) = 3 / 2 := by norm_num
    rw [h3]
    have hfl : (⌊(3 / 2 : ℚ)⌋ : ℤ) = 1 := by
      rw [Int.floor_eq_iff]
      constructor <;> norm_num
    rw [hfl]
    rfl
  refine ⟨?_, by norm_num, ?_⟩
  · rw [hsps]
    rfl
  · rw [hsps]
    decide

/-- C7 (amended): with `S = ⌊R×D⌋` the integral samples-per-segment count
the code actually computes (audio.rs 24), and provided `S ≥ 1` (for
`S = 0` and a non-empty sample vector the loop does not terminate),
segmentation of `N` samples produces exactly `⌈N/S⌉ = (N + S - 1) / S`
segments; the first segment starts at sample `0`, the last ends at sample
`N`, and consecutive segments are contiguous (each starts where the
previous one ends) with every segment non-empty, hence non-overlapping.
The claimed count `⌈N/(R×D)⌉` holds only when `R×D` is an integer. -/
theorem C7_audio_segmentation (len sps : Nat) (hsps : 1 ≤ sps) :
    (segment_audio len sps).length = (len + sps - 1) / sps ∧
    ((segment_audio len sps).head?.map Prod.fst =
      if 0 < len then some 0 else none) ∧
    ((segment_audio len sps).getLast?.map (fun p => p.2) =
      if 0 < len then some len else none) ∧
    List.Chain' (fun a b => a.2 = b.1) (segment_audio len sps) ∧
    (∀ p ∈ segment_audio len sps, p.1 < p.2 ∧ p.2 ≤ len) := by
  have h := segAux_spec len sps hsps (len + 1) 0 (by omega)
  rw [Nat.sub_zero] at h
  exact h

/-- C7 witness at `N = 3`, `S = 2`. -/
theorem C7_witness :
    (segment_audio 3 2).length = (3 + 2 - 1) / 2 :=
  (C7_audio_segmentation 3 2 (by decide)).1

/-! ## Markdown section-splitting lemmas -/

/-- Heading-free events starting from an empty pending section at level 0
touch only `current_content` and `in_code_block`. -/
theorem hf_fold0 :
    ∀ (es : List Event), es.all (fun e => ¬ isHeadingEvent e) = true →
    ∀ st : MdState, st.cs = "" → st.lvl = 0 →
      (es.foldl mdStep st).sections = st.sections ∧
      (es.foldl mdStep st).cs = "" ∧ (es.foldl mdStep st).lvl = 0 := by
  intro es
  induction es with
  | nil =>
    intro _ st h1 h2
    exact ⟨rfl, h1, h2⟩
  | cons e es ih =>
    intro hall st h1 h2
    rw [List.all_cons, Bool.and_eq_true] at hall
    obtain ⟨he, hes⟩ := hall
    rw [List.foldl_cons]
    have key : (mdStep st e).sections = st.sections ∧ (mdStep st e).cs = "" ∧
        (mdStep st e).lvl = 0 := by
      cases e with
      | startHeading l => simp [isHeadingEvent] at he
      | endHeading => simp [isHeadingEvent] at he
      | text t =>
        simp only [mdStep]
        rw [if_neg (by rw [h2]; simp)]
        exact ⟨rfl, h1, h2⟩
      | code c => exact ⟨rfl, h1, h2⟩
      | startCodeBlock => exact ⟨rfl, h1, h2⟩
      | endCodeBlock => exact ⟨rfl, h1, h2⟩
      | softBreak => exact ⟨rfl, h1, h2⟩
      | hardBreak => exact ⟨rfl, h1, h2⟩
      | other => exact ⟨rfl, h1, h2⟩
    obtain ⟨k1, k2, k3⟩ := key
    obtain ⟨r1, r2, r3⟩ := ih hes (mdStep st e) k2 k3
    exact ⟨by rw [r1, k1], r2, r3⟩

/-- Heading-free events starting from a non-empty pending section leave
`sections`, `current_section` and `current_level` unchanged. -/
theorem hf_fold1 :
    ∀ (es : List Event), es.all (fun e => ¬ isHeadingEvent e) = true →
    ∀ st : MdState, st.cs.isEmpty = false →
      (es.foldl mdStep st).sections = st.sections ∧
      (es.foldl mdStep st).cs = st.cs ∧ (es.foldl mdStep st).lvl = st.lvl := by
  intro es
  induction es with
  | nil =>
    intro _ st _
    exact ⟨rfl, rfl, rfl⟩
  | cons e es ih =>
    intro hall st h1
    rw [List.all_cons, Bool.and_eq_true] at hall
    obtain ⟨he, hes⟩ := hall
    rw [List.foldl_cons]
    have key : (mdStep st e).sections = st.sections ∧ (mdStep st e).cs = st.cs ∧
        (mdStep st e).lvl = st.lvl := by
      cases e with
      | startHeading l => simp [isHeadingEvent] at he
      | endHeading => simp [isHeadingEvent] at he
      | text t =>
        simp only [mdStep]
        rw [if_neg (by rw [h1]; simp)]
        exact ⟨rfl, rfl, rfl⟩
      | code c => exact ⟨rfl, rfl, rfl⟩
      | startCodeBlock => exact ⟨rfl, rfl, rfl⟩
      | endCodeBlock => exact ⟨rfl, rfl, rfl⟩
      | softBreak => exact ⟨rfl, rfl, rfl⟩
      | hardBreak => exact ⟨rfl, rfl, rfl⟩
      | other => exact ⟨rfl, rfl, rfl⟩
    obtain ⟨k1, k2, k3⟩ := key
    have h1' : (mdStep st e).cs.isEmpty = false := by rw [k2]; exact h1
    obtain ⟨r1, r2, r3⟩ := ih hes (mdStep st e) h1'
    exact ⟨by rw [r1, k1], by rw [r2, k2], by rw [r3, k3]⟩

/-- The `Event::Text` arm of the fold when a heading is open and no title
has been captured yet: the text becomes the section title
(markdown.rs 38-40). -/
theorem mdStep_text_pos (st : MdState) (t : String) (h1 : st.cs.isEmpty = true)
    (h2 : 0 < st.lvl) : mdStep st (Event.text t) = { st with cs := t } := by
  simp only [mdStep]
  rw [if_pos ⟨h1, h2⟩]

/-- Folding one well-formed heading group pushes the pending section (when
non-empty) and leaves the group's title pending at the group's level. -/
theorem group_fold (l : Nat) (t : String) (body : List Event)
    (ht : t.isEmpty = false) (hl : 0 < l)
    (hb : body.all (fun e => ¬ isHeadingEvent e) = true) (st : MdState) :
    ((headingGroup (l, t, body)).foldl mdStep st).sections =
      (if st.cs.isEmpty then st.sections
       else st.sections ++ [(st.cs, strTrim st.cc, st.lvl)]) ∧
    ((headingGroup (l, t, body)).foldl mdStep st).cs = t ∧
    ((headingGroup (l, t, body)).foldl mdStep st).lvl = l := by
  obtain ⟨S', hS⟩ : ∃ S',
      (if st.cs.isEmpty then st.sections
       else st.sections ++ [(st.cs, strTrim st.cc, st.lvl)]) = S' := ⟨_, rfl⟩
  have e2 : (headingGroup (l, t, body)).foldl mdStep st =
      body.foldl mdStep ⟨S', t, t ++ "\n\n", l, st.icb⟩ := by
    show body.foldl mdStep
      (mdStep (mdStep (mdStep st (Event.startHeading l)) (Event.text t))
        Event.endHeading) = _
    have a1 : mdStep st (Event.startHeading l) = ⟨S', "", "", l, st.icb⟩ := by
      rw [← hS]
      rfl
    rw [a1, mdStep_text_pos ⟨S', "", "", l, st.icb⟩ t rfl hl]
    rfl
  rw [e2]
  obtain ⟨r1, r2, r3⟩ := hf_fold1 body hb ⟨S', t, t ++ "\n\n", l, st.icb⟩ ht
  exact ⟨by rw [r1, hS], r2, r3⟩

/-- Folding a list of well-formed heading groups from a non-empty pending
section: the recorded levels of the emitted sections together with the
still-pending level list exactly the starting pending level followed by
the group levels. -/
theorem groups_fold :
    ∀ (groups : List (Nat × String × List Event)),
      (∀ g ∈ groups, goodGroup g) →
      ∀ st : MdState, st.cs.isEmpty = false →
        ((((groups.map headingGroup).flatten).foldl mdStep st).sections.map
            (fun s => s.2.2)) ++
          [(((groups.map headingGroup).flatten).foldl mdStep st).lvl] =
          (st.sections.map (fun s => s.2.2)) ++ [st.lvl] ++
            groups.map (fun g => g.1) ∧
        ((((groups.map headingGroup).flatten).foldl mdStep st).cs.isEmpty =
          false) := by
  intro groups
  induction groups with
  | nil =>
    intro _ st h1
    constructor
    · simp
    · simpa using h1
  | cons g gs ih =>
    intro hgood st h1
    have hg := hgood g (by simp)
    obtain ⟨ht, hl, hb⟩ := hg
    have hflat : ((g :: gs).map headingGroup).flatten =
        headingGroup g ++ (gs.map headingGroup).flatten := by
      simp
    rw [hflat, List.foldl_append]
    obtain ⟨s1, s2, s3⟩ := group_fold g.1 g.2.1 g.2.2
      (by simpa using ht) hl hb st
    have hcs : ((headingGroup (g.1, g.2.1, g.2.2)).foldl mdStep st).cs.isEmpty =
        false := by
      rw [s2]
      simpa using ht
    have hgg : headingGroup g = headingGroup (g.1, g.2.1, g.2.2) := rfl
    rw [hgg]
    obtain ⟨t1, t2⟩ := ih (fun x hx => hgood x (by simp [hx]))
      ((headingGroup (g.1, g.2.1, g.2.2)).foldl mdStep st) hcs
    refine ⟨?_, t2⟩
    rw [t1, s1, s3, if_neg (by rw [h1]; simp)]
    simp [List.map_append, List.append_assoc]

/-! ## Claim C4 — heading-free Markdown documents -/

/-- C4 counterexample: the heading-free document `"a\n\nb"` yields one
section whose content is the trimmed concatenation `"ab"` of its text
events, not the entire document. -/
theorem C4_counterexample :
    extract_sections twoParagraphEvents "a\n\nb" = [("", "ab", 0)] ∧
    ("ab" : String) ≠ "a\n\nb" :=
  ⟨rfl, by decide⟩

/-- C4 (amended): a non-empty Markdown document with no headings yields
exactly one section at recorded level 0 whose title is the empty string
and whose content is the **trimmed accumulated text content** of the
document's events (not the raw document); when the events accumulate no
content at all, the single section is instead titled `"Document"` at
level 1 and carries the raw document. -/
theorem C4_no_heading_single_section :
    ∀ (events : List Event) (md : String),
      events.all (fun e => ¬ isHeadingEvent e) = true →
      md.isEmpty = false →
      extract_sections events md =
        if (events.foldl mdStep ⟨[], "", "", 0, false⟩).cc.isEmpty then
          [("Document", md, 1)]
        else
          [("", strTrim (events.foldl mdStep ⟨[], "", "", 0, false⟩).cc, 0)] := by
  intro events md hall hmd
  obtain ⟨r1, r2, r3⟩ := hf_fold0 events hall ⟨[], "", "", 0, false⟩ rfl rfl
  have hsec : (events.foldl mdStep ⟨[], "", "", 0, false⟩).sections = [] := r1
  rw [extract_sections]
  simp only [hsec, r2, r3]
  have hempty : ("" : String).isEmpty = true := rfl
  by_cases hcc : (events.foldl mdStep ⟨[], "", "", 0, false⟩).cc.isEmpty = true
  · rw [if_pos hcc]
    have hinner : ¬ (¬ ("" : String).isEmpty = true ∨
        ¬ (events.foldl mdStep ⟨[], "", "", 0, false⟩).cc.isEmpty = true) := by
      simp [hcc, hempty]
    rw [if_neg hinner]
    have houter : (([] : List (String × String × Nat)).isEmpty = true) ∧
        ¬ md.isEmpty = true := ⟨rfl, by simp [hmd]⟩
    rw [if_pos houter]
  · rw [if_neg hcc, if_pos (Or.inr hcc), if_neg (by simp)]
    simp

/-- C4 witness at the single-text-event document `"a"`. -/
theorem C4_witness :
    extract_sections [Event.text "a"] "a" =
      if (([Event.text "a"]).foldl mdStep ⟨[], "", "", 0, false⟩).cc.isEmpty then
        [("Document", "a", 1)]
      else
        [("", strTrim (([Event.text "a"]).foldl mdStep
          ⟨[], "", "", 0, false⟩).cc, 0)] :=
  C4_no_heading_single_section [Event.text "a"] "a" (by decide) (by decide)

/-! ## Claim C6 — heading-based section counts and levels -/

/-- C6 counterexample: the document `"#\n\n## x"` has two headings, but
the first heading has an empty title, so the splitter merges it away and
emits a single section — not one section per heading. -/
theorem C6_counterexample :
    (extract_sections emptyTitleEvents "#\n\n## x").length = 1 ∧
    (1 : Nat) ≠ 2 :=
  ⟨rfl, by decide⟩

/-- C6 (amended): for every Markdown document consisting of a heading-free
preamble followed by headings that each carry a non-empty title (plus
arbitrary heading-free section bodies), the splitter emits exactly one
section per heading, and the recorded levels are exactly the parser's
heading levels in order (headings with empty titles can be merged away, as
the counterexample shows); in particular the scenario document
`"# A\n\n## B\n\n## C\n\n### D"` yields 4 chunks whose recorded
`heading_level` metadata is `[1, 2, 2, 3]` in order. -/
theorem C6_heading_sections :
    (∀ (pre : List Event) (groups : List (Nat × String × List Event))
        (md : String),
      pre.all (fun e => ¬ isHeadingEvent e) = true →
      (∀ g ∈ groups, goodGroup g) →
      groups ≠ [] →
      (extract_sections (headingDoc pre groups) md).map (fun s => s.2.2) =
        groups.map (fun g => g.1) ∧
      (extract_sections (headingDoc pre groups) md).length = groups.length) ∧
    ((markdown_to_markdown_chunks scenarioEvents scenarioDoc).length = 4 ∧
      (markdown_to_markdown_chunks scenarioEvents scenarioDoc).map
          (fun c => List.lookup ("heading_level") c.metadata) =
        [some (Json.num 1), some (Json.num 2), some (Json.num 2),
         some (Json.num 3)]) := by
  constructor
  · intro pre groups md hpre hgood hne
    match groups, hne with
    | g :: gs, _ =>
      have hg := hgood g (by simp)
      obtain ⟨ht, hl, hb⟩ := hg
      have hsplit : headingDoc pre (g :: gs) =
          pre ++ (headingGroup g ++ (gs.map headingGroup).flatten) := by
        rw [headingDoc]
        simp
      obtain ⟨p1, p2, p3⟩ := hf_fold0 pre hpre ⟨[], "", "", 0, false⟩ rfl rfl
      obtain ⟨q1, q2, q3⟩ := group_fold g.1 g.2.1 g.2.2 (by simpa using ht)
        hl hb (pre.foldl mdStep ⟨[], "", "", 0, false⟩)
      have hq : ((headingGroup (g.1, g.2.1, g.2.2)).foldl mdStep
          (pre.foldl mdStep ⟨[], "", "", 0, false⟩)).cs.isEmpty = false := by
        rw [q2]
        simpa using ht
      obtain ⟨t1, t2⟩ := groups_fold gs (fun x hx => hgood x (by simp [hx]))
        ((headingGroup (g.1, g.2.1, g.2.2)).foldl mdStep
          (pre.foldl mdStep ⟨[], "", "", 0, false⟩)) hq
      have hgg : headingGroup g = headingGroup (g.1, g.2.1, g.2.2) := rfl
      have hfold : (headingDoc pre (g :: gs)).foldl mdStep
          ⟨[], "", "", 0, false⟩ =
          ((gs.map headingGroup).flatten).foldl mdStep
            ((headingGroup (g.1, g.2.1, g.2.2)).foldl mdStep
              (pre.foldl mdStep ⟨[], "", "", 0, false⟩)) := by
        rw [hsplit, List.foldl_append, List.foldl_append, hgg]
      -- the level list of the final state
      have hlvls : (((headingDoc pre (g :: gs)).foldl mdStep
          ⟨[], "", "", 0, false⟩).sections.map (fun s => s.2.2)) ++
            [((headingDoc pre (g :: gs)).foldl mdStep
              ⟨[], "", "", 0, false⟩).lvl] =
          (g :: gs).map (fun x => x.1) := by
        rw [hfold, t1, q1, q3, if_pos (by rw [p2]; rfl), p1]
        simp
      have hcs : ((headingDoc pre (g :: gs)).foldl mdStep
          ⟨[], "", "", 0, false⟩).cs.isEmpty = false := by
        rw [hfold]
        exact t2
      have hsecs : extract_sections (headingDoc pre (g :: gs)) md =
          ((headingDoc pre (g :: gs)).foldl mdStep
            ⟨[], "", "", 0, false⟩).sections ++
          [(((headingDoc pre (g :: gs)).foldl mdStep
              ⟨[], "", "", 0, false⟩).cs,
            strTrim (((headingDoc pre (g :: gs)).foldl mdStep
              ⟨[], "", "", 0, false⟩).cc),
            ((headingDoc pre (g :: gs)).foldl mdStep
              ⟨[], "", "", 0, false⟩).lvl)] := by
        simp only [extract_sections]
        rw [if_pos (Or.inl (by simp [hcs]))]
        rw [if_neg (by simp)]
      rw [hsecs]
      constructor
      · rw [List.map_append]
        simpa using hlvls
      · have hlen := congrArg List.length hlvls
        simp at hlen ⊢
        omega
  · exact ⟨rfl, rfl⟩

/-- C6 witness at a single titled heading with a heading-free preamble. -/
theorem C6_witness :
    (extract_sections (headingDoc [Event.text "p"] [(1, "A", [])]) "x").map
        (fun s => s.2.2) = [1] ∧
    (extract_sections (headingDoc [Event.text "p"] [(1, "A", [])]) "x").length
      = 1 :=
  C6_heading_sections.1 [Event.text "p"] [(1, "A", [])] "x" (by decide)
    (by intro g hg; rw [List.mem_singleton.mp hg]; exact ⟨by decide, by decide, by decide⟩)
    (by simp)

/-! ## Claim C9 — chunk identifier uniqueness -/

/-- Every enumerate-and-map chunk construction whose identifier determines
the ordinal yields pairwise-distinct, non-empty identifiers. -/
theorem chunks_ids_ok {α : Type} (f : Nat → α → ContentChunk)
    (hinj : ∀ i x j y, (f i x).id = (f j y).id → i = j)
    (hne : ∀ i x, (f i x).id ≠ "") (l : List α) :
    ((l.enum.map (fun p => f p.1 p.2)).map (fun c => c.id)).Nodup ∧
    (∀ c ∈ l.enum.map (fun p => f p.1 p.2), c.id ≠ "") := by
  constructor
  · rw [List.map_map]
    exact nodup_map_enumFrom (fun i x => (f i x).id) hinj l 0
  · intro c hc
    obtain ⟨p, hp, hpc⟩ := List.mem_map.mp hc
    rw [← hpc]
    exact hne p.1 p.2

/-- C9: for every provider and every processing run, every produced chunk
has a non-empty identifier, and the identifiers are pairwise distinct
within the run (each identifier embeds the chunk ordinal, and the decimal
ordinal is recoverable from the identifier). -/
theorem C9_chunk_ids_unique_nonempty :
    (∀ text : String,
      ((pdf_to_markdown_chunks text).map (fun c => c.id)).Nodup ∧
      (∀ c ∈ pdf_to_markdown_chunks text, c.id ≠ "")) ∧
    (∀ text : String,
      ((document_to_markdown_chunks text).map (fun c => c.id)).Nodup ∧
      (∀ c ∈ document_to_markdown_chunks text, c.id ≠ "")) ∧
    (∀ (events : List Event) (markdown : String),
      ((markdown_to_markdown_chunks events markdown).map
        (fun c => c.id)).Nodup ∧
      (∀ c ∈ markdown_to_markdown_chunks events markdown, c.id ≠ "")) ∧
    (∀ v : Json,
      ((json_to_markdown_chunks v).map (fun c => c.id)).Nodup ∧
      (∀ c ∈ json_to_markdown_chunks v, c.id ≠ "")) ∧
    (∀ (segments : List (Nat × Nat)) (rate channels bits : Nat),
      ((audio_chunks segments rate channels bits).map (fun c => c.id)).Nodup ∧
      (∀ c ∈ audio_chunks segments rate channels bits, c.id ≠ "")) := by
  refine ⟨?_, ?_, ?_, ?_, ?_⟩
  · intro text
    exact chunks_ids_ok pdf_chunk
      (fun i x j y h => prefix_decimal_inj "pdf_chunk_" h)
      (fun i x => append_ne_empty "pdf_chunk_" (decimal i) (by decide)) _
  · intro text
    exact chunks_ids_ok document_chunk
      (fun i x j y h => prefix_decimal_inj "doc_chunk_" h)
      (fun i x => append_ne_empty "doc_chunk_" (decimal i) (by decide)) _
  · intro events markdown
    exact chunks_ids_ok md_chunk
      (fun i x j y h => prefix_decimal_inj "md_chunk_" h)
      (fun i x => append_ne_empty "md_chunk_" (decimal i) (by decide)) _
  · intro v
    refine chunks_ids_ok json_chunk (fun i x j y h => json_id_inj h) ?_ _
    intro i rc
    have hid : (json_chunk i rc).id =
        "json_chunk_" ++ (decimal i ++ ("_" ++ sanitizePath rc.1)) := by
      show "json_chunk_" ++ decimal i ++ "_" ++ sanitizePath rc.1 = _
      rw [String.append_assoc, String.append_assoc]
    rw [hid]
    exact append_ne_empty _ _ (by decide)
  · intro segments rate channels bits
    exact chunks_ids_ok (fun i seg => audio_chunk i seg rate channels bits)
      (fun i x j y h => prefix_decimal_inj "audio_segment_" h)
      (fun i x => append_ne_empty "audio_segment_" (decimal i) (by decide)) _

/-- C9 witness on a one-chunk PDF run and the three-chunk JSON scenario
document. -/
theorem C9_witness :
    ((pdf_to_markdown_chunks "a").map (fun c => c.id)).Nodup ∧
    (pdf_chunk 0 ("a".data)).id ≠ "" ∧
    ((json_to_markdown_chunks kindDocJson).map (fun c => c.id)).Nodup :=
  ⟨(C9_chunk_ids_unique_nonempty.1 "a").1,
   (C9_chunk_ids_unique_nonempty.1 "a").2 (pdf_chunk 0 ("a".data))
     (by rw [show pdf_to_markdown_chunks "a" = [pdf_chunk 0 ("a".data)] from rfl]
         exact List.mem_singleton.mpr rfl),
   (C9_chunk_ids_unique_nonempty.2.2.2.1 kindDocJson).1⟩

end P8fs
